import Mathlib

/-!
Verification of the document composition engine in
`src/utils/guide_generator.py` (class `ModernPDF` and the helper functions
`sanitize_for_fpdf` and `create_pdf_from_text`).

Modelling conventions used throughout this file:

* Text is modelled as `String` / `List Char`; Python slices such as
  `chunk[3:-3]` become `(s.drop 3).dropRight 3`.
* The layout state machine (cursor and page bookkeeping) works in integer
  tenths of a millimetre, so that every constant of the source
  (page height 279.4, auto-page-break margin 25, the hardcoded 260 used in
  the box page-break checks, line heights 5 and 6, paddings 2/3/4/9/12)
  is represented exactly and all comparisons are decidable.
  Thus 2544 stands for 254.4 mm (the fpdf auto-page-break trigger
  `279.4 - 25`), 2600 for the hardcoded 260 mm, and so on.
* The pieces of library behaviour the source leans on are embedded
  explicitly and only where the source exercises them: fpdf2's automatic
  page break (a cell or flowed image whose bottom would pass
  `page_height - bottom_margin` first starts a new page) and the
  100-per-cent Latin-1 "replace" encoding (`'?'` for characters above
  U+00FF).  The per-page header of `ModernPDF` leaves the cursor at
  y = 15 mm on every page after the first, which is where a fresh page's
  content starts during composition.
* Formula-image geometry (`draw_latex_formula`, the inline-math branch of
  `_write_sub_segment`) is modelled over `ℚ` in millimetres, since it
  divides pixel sizes by dpi.
* The network call of `render_latex` is abstracted into a client function
  `String → ℕ → Option RasterAsset`: `none` covers every failure mode that
  ends in the textual fallback (network error, non-success status — both
  make `render_latex` return `None` — and an undecodable image, which the
  drawing code catches and routes to the same fallback).
-/

namespace GuideGenerator

/-! ## Sanitization (`sanitize_for_fpdf`, `ModernPDF._safe_text`) -/

/-- Character-level form of the replacement table of `sanitize_for_fpdf`
(guide_generator.py lines 124-127).  The Python code applies the eight
`str.replace` calls sequentially, but every key is a single character above
U+00FF and every replacement string is pure ASCII, so the sequential
replaces are equivalent to this single simultaneous character
substitution. -/
def substChar (c : Char) : List Char :=
  if c = '’' then ['\'']
  else if c = '‘' then ['\'']
  else if c = '“' then ['"']
  else if c = '”' then ['"']
  else if c = '—' then ['-', '-']
  else if c = '…' then ['.', '.', '.']
  else if c = '–' then ['-']
  else if c = '•' then ['*']
  else [c]

/-- Latin-1 encodability of a character: code point at most 255. -/
def latin1Char (c : Char) : Bool := c.toNat ≤ 255

/-- Embedding of `sanitize_for_fpdf` (guide_generator.py lines 122-130):
apply the typographic-punctuation replacement table, then
`encode('latin-1', 'replace').decode('latin-1')`, which keeps every
Latin-1 character and turns every other character into `'?'`. -/
def sanitize_for_fpdf (s : String) : String :=
  String.mk ((s.data.flatMap substChar).map fun c => if latin1Char c then c else '?')

/-- The primary font of `ModernPDF`: DejaVu (full Unicode) when the font
files loaded, otherwise the Helvetica fallback
(guide_generator.py lines 139-152). -/
inductive MainFont
  | dejavu
  | helvetica
deriving DecidableEq

/-- Embedding of `ModernPDF._safe_text` (line 154-155): body text is
sanitized only under the Helvetica fallback. -/
def safeText : MainFont → String → String
  | MainFont.helvetica, s => sanitize_for_fpdf s
  | MainFont.dejavu, s => s

/-- Text actually written into a fenced code block's background box:
`draw_code_block` calls `sanitize_for_fpdf` directly (line 255),
regardless of the loaded font. -/
def codeBlockText (_font : MainFont) (s : String) : String :=
  sanitize_for_fpdf s

/-- Text actually written for an inline code span: the code branch of
`_write_sub_segment` calls `sanitize_for_fpdf` directly on the span's
content (line 363), regardless of the loaded font. -/
def inlineCodeText (_font : MainFont) (s : String) : String :=
  sanitize_for_fpdf s

/-! ## Formula raster geometry -/

/-- A decoded raster image as the code sees it: `img_data` plus
`img.size = (pixel_width, pixel_height)`. -/
structure RasterAsset where
  bytes : List ℕ
  pixel_width : ℕ
  pixel_height : ℕ
deriving DecidableEq

/-- Millimetres per inch, exact. -/
def mmPerInch : ℚ := 254 / 10

/-- Width in mm of a block formula image:
`w_mm = (img.size[0] / dpi) * 25.4` with `dpi = 300`
(guide_generator.py lines 328-333). -/
def blockFormulaWidth (pw : ℕ) : ℚ := (pw : ℚ) / 300 * mmPerInch

/-- Height in mm of a block formula image, line 334. -/
def blockFormulaHeight (ph : ℕ) : ℚ := (ph : ℚ) / 300 * mmPerInch

/-- Horizontal position of a block formula image:
`x = (210 - w_mm) / 2` (line 337).  Note 210 is hardcoded although the
Letter page is 215.9 mm wide. -/
def blockFormulaX (pw : ℕ) : ℚ := (210 - blockFormulaWidth pw) / 2

/-- Width in mm of an inline formula image:
`w = (img.size[0] / 200) * 25.4` (line 377). -/
def inlineFormulaWidth (pw : ℕ) : ℚ := (pw : ℚ) / 200 * mmPerInch

/-- Height in mm of an inline formula image (line 378). -/
def inlineFormulaHeight (ph : ℕ) : ℚ := (ph : ℚ) / 200 * mmPerInch

/-- Left edge of the content area: `pdf.set_left_margin(20)`
(guide_generator.py line 407). -/
def contentLeft : ℚ := 20

/-- Right edge of the content area: Letter width 215.9 mm minus the
20 mm right margin (line 408). -/
def contentRight : ℚ := 2159 / 10 - 20

/-- Placement computed by the inline-math branch of `_write_sub_segment`
(lines 376-381) for an image of pixel size `pw × ph` when the cursor is at
`(x, y)`:  the image's x is the current x unchanged, its y centres the
image on the 6 mm text line (`self.line_height` is set to 6 in
`__init__`), and the cursor moves to `x + w + 1`.  There is no check
against the remaining line width anywhere in this branch. -/
structure InlinePlacement where
  imgX : ℚ
  imgY : ℚ
  width : ℚ
  height : ℚ
  nextX : ℚ
deriving DecidableEq

/-- Embedding of lines 376-381 of guide_generator.py. -/
def placeInlineFormula (x y : ℚ) (pw ph : ℕ) : InlinePlacement :=
  let w := inlineFormulaWidth pw
  let h := inlineFormulaHeight ph
  { imgX := x
    imgY := y + (6 - h) / 2 + 1
    width := w
    height := h
    nextX := x + w + 1 }

/-! ## Markup parser (`create_pdf_from_text`, lines 404-443)

The Python code splits the whole input with
`re.split(r'(```.*?```|\$\$.*?\$\$|\[\[BOX:.*?\]\])', text, flags=re.DOTALL)`
and then classifies each chunk with `startswith` checks.  The regex scan is
embedded directly: walk the string left to right; at each position, a
separator starts iff the text starts with one of the three opening markers
and the matching closing marker occurs later (non-greedy: the earliest such
occurrence; `DOTALL` means newlines are allowed inside).  Everything between
separators is an ordinary text chunk.  The scan is written with explicit
fuel so it stays structurally recursive and kernel-computable; the fuel is
instantiated with the input length, which is always sufficient because each
step consumes at least one character. -/

/-- Earliest occurrence of `pat` in `l`: returns the part before the
occurrence and the part after it. -/
def findSub (pat : List Char) : List Char → Option (List Char × List Char)
  | [] => none
  | c :: cs =>
    if pat.isPrefixOf (c :: cs) then some ([], (c :: cs).drop pat.length)
    else (findSub pat cs).map fun p => (c :: p.1, p.2)

/-- One separator alternative of the chunk-splitting regex:
opening marker, closing marker. -/
structure ChunkPattern where
  opener : List Char
  closer : List Char

/-- The three alternatives of the regex, in regex order. -/
def chunkPatterns : List ChunkPattern :=
  [⟨"```".toList, "```".toList⟩, ⟨"$$".toList, "$$".toList⟩, ⟨"[[BOX:".toList, "]]".toList⟩]

/-- Does a separator match start at the head of `l`?  If so, return the full
matched separator text and the rest of the input.  Tries the three
alternatives in regex order; their openers are pairwise non-prefixes so at
most one can apply at a given position. -/
def chunkDelimAt (l : List Char) : Option (List Char × List Char) :=
  chunkPatterns.firstM fun pat =>
    if pat.opener.isPrefixOf l then
      (findSub pat.closer (l.drop pat.opener.length)).map fun p =>
        (pat.opener ++ p.1 ++ pat.closer, p.2)
    else none

/-- Fuel-indexed splitting scan.  `acc` is the current plain-text chunk,
reversed.  Mirrors `re.split` with a capturing group: the output alternates
text chunks and separator chunks (empty text chunks are kept here, exactly
as `re.split` keeps empty strings; the consumer skips blank chunks). -/
def splitChunksF : ℕ → List Char → List Char → List (List Char)
  | 0, acc, l => [acc.reverse ++ l]
  | _ + 1, acc, [] => [acc.reverse]
  | fuel + 1, acc, c :: cs =>
    match chunkDelimAt (c :: cs) with
    | some (m, rest) =>
      acc.reverse :: m :: splitChunksF fuel [] rest
    | none => splitChunksF fuel (c :: acc) cs

/-- Embedding of the `re.split` call on line 411. -/
def splitChunks (s : String) : List String :=
  (splitChunksF s.data.length [] s.data).map String.mk

/-- The Block data model: one constructor per structural unit drawn by the
loop body of `create_pdf_from_text`.  `spacing` is the empty-line signal of
the final `else` branch (line 441-443). -/
inductive Block
  | heading1 (text : String)
  | heading2 (text : String)
  | bullet (text : String)
  | paragraph (text : String)
  | codeBlock (text : String)
  | mathBlock (formula : String)
  | calloutBox (title : String) (body : String)
  | spacing
deriving DecidableEq

/-- Python `str.strip()`: whitespace removed from both ends.  (Written at
the character-list level so that it evaluates inside the kernel; Lean's
`String.trim` agrees on ASCII whitespace.) -/
def pyStrip (l : List Char) : List Char :=
  ((l.dropWhile Char.isWhitespace).reverse.dropWhile Char.isWhitespace).reverse

/-- Python `str.split(sep, 1)` for a single-character separator: split on
the first occurrence. -/
def splitFirstOn (sep : Char) (l : List Char) : List Char × List Char :=
  match findSub [sep] l with
  | some p => (p.1, p.2)
  | none => (l, [])

/-- Python `str.split('\n')`: every newline separates, empty pieces kept. -/
def splitNewlines : List Char → List (List Char)
  | [] => [[]]
  | c :: cs =>
    if c = '\n' then [] :: splitNewlines cs
    else
      match splitNewlines cs with
      | [] => [[c]]
      | l :: ls => (c :: l) :: ls

/-- Python slice `[:-n]`. -/
def pyDropRight (n : ℕ) (l : List Char) : List Char :=
  l.take (l.length - n)

/-- Line classification, lines 431-443: the line is stripped first, then the
leading-token checks run in order `### `, `#### `, `* `, non-empty,
empty. -/
def classifyLine (line : List Char) : Block :=
  let s := pyStrip line
  if "### ".toList.isPrefixOf s then Block.heading1 (String.mk (s.drop 4))
  else if "#### ".toList.isPrefixOf s then Block.heading2 (String.mk (s.drop 5))
  else if "* ".toList.isPrefixOf s then Block.bullet (String.mk (s.drop 2))
  else if s ≠ [] then Block.paragraph (String.mk s)
  else Block.spacing

/-- Chunk classification, lines 413-443: blank chunks are skipped; then the
`startswith` checks run in order `[[BOX:`, three backticks, `$$`; everything
else is processed line by line. -/
def classifyChunk (chunk : List Char) : List Block :=
  if pyStrip chunk = [] then []
  else if "[[BOX:".toList.isPrefixOf chunk then
    let content := pyDropRight 2 (chunk.drop 6)
    if content.contains '|' then
      let tb := splitFirstOn '|' content
      [Block.calloutBox (String.mk (pyStrip tb.1)) (String.mk (pyStrip tb.2))]
    else [Block.calloutBox "Note" (String.mk (pyStrip content))]
  else if "```".toList.isPrefixOf chunk then
    [Block.codeBlock (String.mk (pyStrip (pyDropRight 3 (chunk.drop 3))))]
  else if "$$".toList.isPrefixOf chunk then
    [Block.mathBlock (String.mk (pyStrip (pyDropRight 2 (chunk.drop 2))))]
  else (splitNewlines chunk).map classifyLine

/-- The full markup parse of `create_pdf_from_text`: split into chunks,
classify each. -/
def parseDocument (s : String) : List Block :=
  (splitChunksF s.data.length [] s.data).flatMap classifyChunk

/-- Is a block a fenced code block? -/
def isCodeBlock : Block → Bool
  | Block.codeBlock _ => true
  | _ => false

/-! ## Inline style resolver (`write_styled_text`, `_write_sub_segment`)

`write_styled_text` (lines 389-402) splits a line on
`re.split(r'(\*\*.*?\*\*)', text)`; odd-index segments are bold and have
their `**` markers stripped; empty segments are skipped.  Each segment then
goes through `_write_sub_segment` (lines 351-387), which splits on
`re.split(r'(`.*?`|\$.*?\$)', text)` and emits an inline-code run, an
inline-math run, or a plain run per non-empty part.  Neither pattern uses
`DOTALL`, so `.` does not cross a newline: a candidate span whose closing
marker only occurs after a newline does not match. -/

/-- Earliest closing position of a two-character delimiter `a b` whose
span content may not contain a newline: returns (content, rest). -/
def findClose2 (a b : Char) : List Char → Option (List Char × List Char)
  | [] => none
  | [_] => none
  | c :: d :: rest =>
    if c = a ∧ d = b then some ([], rest)
    else if c = '\n' then none
    else (findClose2 a b (d :: rest)).map fun p => (c :: p.1, p.2)

/-- Earliest closing position of a one-character delimiter `t` whose span
content may not contain a newline: returns (content, rest). -/
def findClose1 (t : Char) : List Char → Option (List Char × List Char)
  | [] => none
  | c :: cs =>
    if c = t then some ([], cs)
    else if c = '\n' then none
    else (findClose1 t cs).map fun p => (c :: p.1, p.2)

/-- Does a bold span `**content**` start at the head of `l`?  Returns its
content and the rest. -/
def boldDelimAt : List Char → Option (List Char × List Char)
  | c :: d :: rest => if c = '*' ∧ d = '*' then findClose2 '*' '*' rest else none
  | _ => none

/-- One segment of the bold-level split: the flag says whether the segment
was `**`-delimited (in which case the markers are already stripped, as in
`seg[2:-2]` on line 399). -/
def boldSegsF : ℕ → List Char → List Char → List (Bool × List Char)
  | 0, acc, l => if acc.reverse ++ l = [] then [] else [(false, acc.reverse ++ l)]
  | _ + 1, acc, [] => if acc = [] then [] else [(false, acc.reverse)]
  | fuel + 1, acc, c :: cs =>
    match boldDelimAt (c :: cs) with
    | some (inner, rest) =>
      (if acc = [] then [] else [(false, acc.reverse)]) ++
        (true, inner) :: boldSegsF fuel [] rest
    | none => boldSegsF fuel (c :: acc) cs

/-- Embedding of the bold split of `write_styled_text` (line 394), with the
empty-segment skip of line 396 and the marker strip of line 399 applied. -/
def boldSegs (s : String) : List (Bool × String)  :=
  (boldSegsF s.data.length [] s.data).map fun p => (p.1, String.mk p.2)

/-- The three run shapes recognised inside a segment by
`_write_sub_segment`. -/
inductive SubSeg
  | codeSpan (text : String)
  | mathSpan (formula : String)
  | plainSeg (text : String)
deriving DecidableEq

/-- Does an inline code or math span start at the head of `l`?  The two
regex alternatives start with distinct characters, so their order never
matters at a fixed position. -/
def subDelimAt : List Char → Option (SubSeg × List Char)
  | [] => none
  | c :: rest =>
    if c = '`' then (findClose1 '`' rest).map fun p => (SubSeg.codeSpan (String.mk p.1), p.2)
    else if c = '$' then (findClose1 '$' rest).map fun p => (SubSeg.mathSpan (String.mk p.1), p.2)
    else none

/-- Sub-segment split of `_write_sub_segment` (line 354), with the
empty-part skip of line 356 and the marker strips `part[1:-1]` of
lines 363 and 372 applied. -/
def subSegsF : ℕ → List Char → List Char → List SubSeg
  | 0, acc, l =>
    if acc.reverse ++ l = [] then [] else [SubSeg.plainSeg (String.mk (acc.reverse ++ l))]
  | _ + 1, acc, [] => if acc = [] then [] else [SubSeg.plainSeg (String.mk acc.reverse)]
  | fuel + 1, acc, c :: cs =>
    match subDelimAt (c :: cs) with
    | some (seg, rest) =>
      (if acc = [] then [] else [SubSeg.plainSeg (String.mk acc.reverse)]) ++
        seg :: subSegsF fuel [] rest
    | none => subSegsF fuel (c :: acc) cs

/-- All sub-runs of one bold-level segment. -/
def subSegs (s : String) : List SubSeg :=
  subSegsF s.data.length [] s.data

/-- An InlineRun of the data model: a sub-run together with the bold flag
inherited from its enclosing segment. -/
structure InlineRun where
  bold : Bool
  seg : SubSeg
deriving DecidableEq

/-- The full inline style resolution of a Heading/Bullet/Paragraph text:
bold-level split, then code/math split inside each segment. -/
def resolveInline (s : String) : List InlineRun :=
  (boldSegs s).flatMap fun p => (subSegs p.2).map fun seg => InlineRun.mk p.1 seg

/-- Text content of a sub-run, style markers stripped. -/
def subContent : SubSeg → String
  | SubSeg.codeSpan t => t
  | SubSeg.mathSpan f => f
  | SubSeg.plainSeg t => t

/-- The exact source text a sub-run was parsed from, markers included. -/
def subSource : SubSeg → String
  | SubSeg.codeSpan t => "`" ++ t ++ "`"
  | SubSeg.mathSpan f => "$" ++ f ++ "$"
  | SubSeg.plainSeg t => t

/-- The exact source text a bold-level segment was parsed from. -/
def boldSource (p : Bool × String) : String :=
  if p.1 then "**" ++ p.2 ++ "**" else p.2

/-- Text content of an InlineRun, style markers stripped. -/
def runContent (r : InlineRun) : String :=
  subContent r.seg

/-- The concatenation of all run contents of a text, in order: this is the
text with all resolved style markers stripped. -/
def strippedText (s : String) : String :=
  String.join ((resolveInline s).map runContent)

/-! ## Page compositor layout state

All lengths in this section are integer tenths of a millimetre.  Relevant
exact constants of the source:

* the Letter page is 279.4 mm high; `set_auto_page_break(auto=True,
  margin=25)` in `__init__` puts fpdf2's automatic page-break trigger at
  `279.4 - 25 = 254.4` mm (2544 tenths): a cell or flowed image whose
  bottom would pass it first starts a new page;
* the box page-break checks of `draw_code_block` (line 239),
  `draw_callout_box` (line 286) and `draw_latex_formula` (line 340)
  instead compare against a hardcoded `260` (2600 tenths);
* after `add_page`, the `header` of pages ≥ 2 runs `set_y(10)` then
  `ln(5)`, leaving the cursor at 15 mm (150 tenths);
* code lines are written by `multi_cell(166, 5, ...)` (5 mm per line),
  callout bodies by `multi_cell(160, 6, ...)` (6 mm per line).

Text wrapping inside `multi_cell` depends on font metrics, which are not
modelled: a code block is characterised by its number of source lines
(`text.split('\n')`, assuming no source line wider than the 166 mm cell),
and a callout box by the number of wrapped body lines that the
`split_only=True` measurement pass returns — the drawing pass uses the
same width and font, so it produces the same lines. -/

/-- Trigger of fpdf2's automatic page break: page height minus the bottom
margin, `279.4 - 25 = 254.4` mm. -/
def pageBreakTrigger : ℤ := 2544

/-- The hardcoded bound of the three explicit page-break checks: 260 mm. -/
def boxBreakLimit : ℤ := 2600

/-- Cursor position at the top of a fresh page ≥ 2 after the minimal
header: 15 mm. -/
def freshPageY : ℤ := 150

/-- Current page number and vertical cursor position. -/
structure LayoutState where
  page : ℕ
  y : ℤ
deriving DecidableEq

/-- Behaviour of fpdf2 `multi_cell` drawing `n` lines of height `h`
starting from `st`: before each line, the automatic page break fires iff
the line's bottom would pass the trigger; the line is then drawn at the
(possibly reset) cursor.  Returns the (page, top-y) of every drawn line and
the final state. -/
def multiCellLines : LayoutState → ℤ → ℕ → List (ℕ × ℤ) × LayoutState
  | st, _, 0 => ([], st)
  | st, h, n + 1 =>
    let st' :=
      if pageBreakTrigger < st.y + h then LayoutState.mk (st.page + 1) freshPageY else st
    let r := multiCellLines (LayoutState.mk st'.page (st'.y + h)) h n
    ((st'.page, st'.y) :: r.1, r.2)

/-- Everything a box-drawing call paints and where: how many pages the
explicit pre-check allocated, the page and vertical extent of the
background rectangle, the page and top-y of every text line, and the final
cursor state. -/
structure BoxDraw where
  breaksBefore : ℕ
  rectPage : ℕ
  rectTop : ℤ
  rectBottom : ℤ
  textLines : List (ℕ × ℤ)
  finalState : LayoutState
deriving DecidableEq

/-- A box is drawn on a single page when every text line lands on the page
of its background rectangle. -/
def boxUnsplit (b : BoxDraw) : Bool :=
  b.textLines.all fun p => p.1 = b.rectPage

/-- Embedding of `ModernPDF.draw_code_block` (lines 223-259) for a block of
`numLines` source lines:
`ln(2)`; `height = num_lines * 5 + 6`; the check
`if y + height > 260: add_page(); y = get_y()`; `rect(x, y, 170, height)`;
code text via `multi_cell(166, 5, ...)` starting at `y + 3`
(the `set_xy(x + 2, y + 3)` of line 252); finally `set_y(y + height + 4)`.
The small "CODE" label cell (`cell(8, 4)` at `y + 1`, line 249) never
reaches the auto-break trigger once the check has passed (`y ≤ 249` for a
nonempty block) and is not recorded. -/
def drawCodeBlock (st : LayoutState) (numLines : ℕ) : BoxDraw :=
  let y0 : ℤ := st.y + 20
  let height : ℤ := numLines * 50 + 60
  let brk : Bool := boxBreakLimit < y0 + height
  let page1 : ℕ := if brk then st.page + 1 else st.page
  let y1 : ℤ := if brk then freshPageY else y0
  let r := multiCellLines (LayoutState.mk page1 (y1 + 30)) 50 numLines
  { breaksBefore := if brk then 1 else 0
    rectPage := page1
    rectTop := y1
    rectBottom := y1 + height
    textLines := r.1
    finalState := LayoutState.mk r.2.page (y1 + height + 40) }

/-- Embedding of `ModernPDF.draw_callout_box` (lines 261-311) for a box
whose measured body is `bodyLines` wrapped lines:
`ln(4)`; `h = len(lines) * 6 + 12` from the `split_only=True` measurement;
the check `if get_y() + h > 260: add_page()`; then `x, y = get_x(), get_y()`;
`rect(x, y, 170, h)` plus the accent bar; the title cell at `y + 3`
(`cell(0, 6)`, which never reaches the trigger once the check has passed,
since `y ≤ 242` for a nonempty box); the body via `multi_cell(160, 6, ...)`
from `y + 9`; finally `set_y(y + h + 4)`. -/
def drawCalloutBox (st : LayoutState) (bodyLines : ℕ) : BoxDraw :=
  let y0 : ℤ := st.y + 40
  let h : ℤ := bodyLines * 60 + 120
  let brk : Bool := boxBreakLimit < y0 + h
  let page1 : ℕ := if brk then st.page + 1 else st.page
  let y1 : ℤ := if brk then freshPageY else y0
  let r := multiCellLines (LayoutState.mk page1 (y1 + 90)) 60 bodyLines
  { breaksBefore := if brk then 1 else 0
    rectPage := page1
    rectTop := y1
    rectBottom := y1 + h
    textLines := r.1
    finalState := LayoutState.mk r.2.page (y1 + h + 40) }

/-- Placement record for a block formula image. -/
structure ImageDraw where
  breaksBefore : ℕ
  imgPage : ℕ
  imgTop : ℤ
  imgBottom : ℤ
  finalState : LayoutState
deriving DecidableEq

/-- Embedding of the successful-image path of
`ModernPDF.draw_latex_formula` (lines 338-343) for an image of height
`hImg` (tenths of a mm): `ln(2)`; the manual check
`if get_y() + h_mm > 260: add_page()`; then `image(..., w=w_mm, h=h_mm)`
without an explicit y, which is fpdf2's flowing mode: it first fires the
automatic page break if the image's bottom would pass the trigger, draws at
the cursor, and advances the cursor by the image height; finally
`ln(h_mm + 4)`. -/
def drawLatexImage (st : LayoutState) (hImg : ℤ) : ImageDraw :=
  let y0 : ℤ := st.y + 20
  let brk1 : Bool := boxBreakLimit < y0 + hImg
  let page1 : ℕ := if brk1 then st.page + 1 else st.page
  let y1 : ℤ := if brk1 then freshPageY else y0
  let brk2 : Bool := pageBreakTrigger < y1 + hImg
  let page2 : ℕ := if brk2 then page1 + 1 else page1
  let y2 : ℤ := if brk2 then freshPageY else y1
  { breaksBefore := (if brk1 then 1 else 0) + (if brk2 then 1 else 0)
    imgPage := page2
    imgTop := y2
    imgBottom := y2 + hImg
    finalState := LayoutState.mk page2 (y2 + hImg + hImg + 40) }

/-! ## Document builder (`create_pdf_from_text` end to end)

The network call of `render_latex` is abstracted as a client
`String → ℕ → Option RasterAsset` (formula, dpi).  `none` stands for every
`Failure` of the Formula Rasterization Client: `render_latex` returns
`None` on a network error or a non-success status (its bare `except`
around `requests.get` / `raise_for_status`, lines 319-324), and an
undecodable byte payload makes `Image.open` raise, which the drawing code
catches (lines 344-346 and 382-383) and routes to the same textual
fallback as `None`.  The artifact is modelled as the ordered sequence of
rendered blocks — every datum the composition ink depends on, in
particular every client response actually used. -/

/-- A rasterization client, as `render_latex` is used: formula and dpi in,
image out or failure. -/
def RasterClient : Type := String → ℕ → Option RasterAsset

/-- A rendered inline run: plain text written with `write`, an inline code
chip, an embedded inline image, or the textual fallback for a failed
inline formula (the `write(self.line_height, f" {formula} ")` of
lines 383 and 385). -/
inductive RenderedRun
  | textRun (bold : Bool) (text : String)
  | codeChip (text : String)
  | inlineImage (asset : RasterAsset)
  | inlineMathText (text : String)
deriving DecidableEq

/-- Rendering of one InlineRun by `_write_sub_segment`, given the loaded
font and the client: code spans are sanitized unconditionally (line 363),
plain text goes through `_safe_text` (line 387), and an inline formula
becomes an image at 200 dpi or the spaced bare-formula fallback. -/
def renderRun (font : MainFont) (client : RasterClient) (r : InlineRun) : RenderedRun :=
  match r.seg with
  | SubSeg.codeSpan t => RenderedRun.codeChip (sanitize_for_fpdf t)
  | SubSeg.plainSeg t => RenderedRun.textRun r.bold (safeText font t)
  | SubSeg.mathSpan f =>
    match client f 200 with
    | some a => RenderedRun.inlineImage a
    | none => RenderedRun.inlineMathText (" " ++ f ++ " ")

/-- A rendered block of the artifact. -/
inductive Rendered
  | heading1R (text : String)
  | heading2R (text : String)
  | bulletR (runs : List RenderedRun)
  | paragraphR (runs : List RenderedRun)
  | codeBlockR (text : String)
  | mathImageR (asset : RasterAsset)
  | mathFallbackR (text : String)
  | calloutBoxR (title : String) (body : String)
  | spacingR
deriving DecidableEq

/-- Rendering of one Block by the loop body of `create_pdf_from_text`:
headings and callout bodies go through `_safe_text`, bullets and
paragraphs through the inline style resolver, code blocks through
`sanitize_for_fpdf`, and a block formula becomes an image at 300 dpi or
the bracketed fallback `f"[Formula: {formula}]"` of lines 346 and 349. -/
def renderBlock (font : MainFont) (client : RasterClient) : Block → Rendered
  | Block.heading1 t => Rendered.heading1R (safeText font t)
  | Block.heading2 t => Rendered.heading2R (safeText font t)
  | Block.bullet t => Rendered.bulletR ((resolveInline t).map (renderRun font client))
  | Block.paragraph t => Rendered.paragraphR ((resolveInline t).map (renderRun font client))
  | Block.codeBlock t => Rendered.codeBlockR (sanitize_for_fpdf t)
  | Block.mathBlock f =>
    match client f 300 with
    | some a => Rendered.mathImageR a
    | none => Rendered.mathFallbackR ("[Formula: " ++ f ++ "]")
  | Block.calloutBox title body =>
    Rendered.calloutBoxR (safeText font title) (safeText font body)
  | Block.spacing => Rendered.spacingR

/-- The whole Document Builder: parse the markup string, render every
block in order. -/
def buildDocument (font : MainFont) (client : RasterClient) (s : String) : List Rendered :=
  (parseDocument s).map (renderBlock font client)

/-! ## Helper lemmas -/

/-- Output of the sanitizer is always Latin-1 encodable. -/
theorem sanitize_all_latin1 (s : String) :
    (sanitize_for_fpdf s).data.all latin1Char = true := by
  unfold sanitize_for_fpdf
  rw [List.all_eq_true]
  intro c hc
  rw [List.mem_map] at hc
  obtain ⟨d, _, rfl⟩ := hc
  by_cases h : latin1Char d = true
  · simp [h]
  · rw [if_neg h]
    decide

/-- Strings with equal character data are equal. -/
theorem string_eq_of_data {a b : String} (h : a.data = b.data) : a = b := by
  cases a
  cases b
  exact congrArg String.mk h

/-- Character data of a joined list of strings. -/
theorem string_join_data (ls : List String) :
    (String.join ls).data = (ls.map String.data).flatten := by
  suffices haux : ∀ (ls : List String) (init : String),
      (List.foldl (· ++ ·) init ls).data = init.data ++ (ls.map String.data).flatten by
    exact haux ls ""
  intro ls
  induction ls with
  | nil => intro init; simp
  | cons a t ih =>
    intro init
    simp only [List.foldl_cons, ih (init ++ a), List.map_cons, List.flatten_cons]
    simp

/-- Decomposition of a successful single-character-delimiter search. -/
theorem findClose1_eq (t : Char) :
    ∀ l b r, findClose1 t l = some (b, r) → l = b ++ t :: r := by
  intro l
  induction l with
  | nil => intro b r h; simp [findClose1] at h
  | cons c cs ih =>
    intro b r h
    by_cases hct : c = t
    · simp only [findClose1, if_pos hct] at h
      obtain ⟨hb, hr⟩ := Prod.mk.injEq .. ▸ Option.some.inj h
      subst hct hb hr
      simp
    · by_cases hcn : c = '\n'
      · subst hcn
        simp [findClose1, hct] at h
      · simp only [findClose1, if_neg hct, if_neg hcn] at h
        cases hfc : findClose1 t cs with
        | none => rw [hfc] at h; simp at h
        | some p =>
          rw [hfc] at h
          simp only [Option.map_some'] at h
          obtain ⟨hb, hr⟩ := Prod.mk.injEq .. ▸ Option.some.inj h
          subst hb hr
          simp [ih p.1 p.2 hfc]

/-- Decomposition of a successful two-character-delimiter search. -/
theorem findClose2_eq (a b : Char) :
    ∀ l cont r, findClose2 a b l = some (cont, r) → l = cont ++ a :: b :: r := by
  intro l
  induction l with
  | nil => intro cont r h; simp [findClose2] at h
  | cons c cs ih =>
    cases cs with
    | nil => intro cont r h; simp [findClose2] at h
    | cons d rest =>
      intro cont r h
      by_cases hab : c = a ∧ d = b
      · simp only [findClose2, if_pos hab] at h
        obtain ⟨hb, hr⟩ := Prod.mk.injEq .. ▸ Option.some.inj h
        subst hb hr
        simp [hab.1, hab.2]
      · by_cases hcn : c = '\n'
        · subst hcn
          simp [findClose2, hab] at h
        · simp only [findClose2, if_neg hab, if_neg hcn] at h
          cases hfc : findClose2 a b (d :: rest) with
          | none => rw [hfc] at h; simp at h
          | some p =>
            rw [hfc] at h
            simp only [Option.map_some'] at h
            obtain ⟨hb, hr⟩ := Prod.mk.injEq .. ▸ Option.some.inj h
            subst hb hr
            simpa using ih p.1 p.2 hfc

/-- A successful sub-delimiter match decomposes the input: re-inserting the
markers around the span's content and appending the rest reproduces the
input exactly; the rest is at least two characters shorter. -/
theorem subDelimAt_eq (l : List Char) (seg : SubSeg) (rest : List Char)
    (h : subDelimAt l = some (seg, rest)) :
    (subSource seg).data ++ rest = l ∧ rest.length + 2 ≤ l.length := by
  cases l with
  | nil => simp [subDelimAt] at h
  | cons c cs =>
    by_cases hbt : c = '`'
    · simp only [subDelimAt, if_pos hbt] at h
      cases hfc : findClose1 '`' cs with
      | none => rw [hfc] at h; simp at h
      | some p =>
        rw [hfc] at h
        simp only [Option.map_some'] at h
        obtain ⟨hs, hr⟩ := Prod.mk.injEq .. ▸ Option.some.inj h
        subst hs hr
        have hd := findClose1_eq '`' cs p.1 p.2 hfc
        subst hbt
        constructor
        · simp [subSource, hd, String.data]
        · rw [hd]
          simp
    · by_cases hdl : c = '$'
      · simp only [subDelimAt, if_neg hbt, if_pos hdl] at h
        cases hfc : findClose1 '$' cs with
        | none => rw [hfc] at h; simp at h
        | some p =>
          rw [hfc] at h
          simp only [Option.map_some'] at h
          obtain ⟨hs, hr⟩ := Prod.mk.injEq .. ▸ Option.some.inj h
          subst hs hr
          have hd := findClose1_eq '$' cs p.1 p.2 hfc
          subst hdl
          constructor
          · simp [subSource, hd, String.data]
          · rw [hd]
            simp
      · simp [subDelimAt, hbt, hdl] at h

/-- A successful bold-delimiter match decomposes the input likewise; the
rest is at least four characters shorter. -/
theorem boldDelimAt_eq (l inner rest : List Char)
    (h : boldDelimAt l = some (inner, rest)) :
    '*' :: '*' :: (inner ++ '*' :: '*' :: rest) = l ∧ rest.length + 4 ≤ l.length := by
  cases l with
  | nil => simp [boldDelimAt] at h
  | cons c cs =>
    cases cs with
    | nil => simp [boldDelimAt] at h
    | cons d tl =>
      by_cases hab : c = '*' ∧ d = '*'
      · simp only [boldDelimAt, if_pos hab] at h
        have hd := findClose2_eq '*' '*' tl inner rest h
        obtain ⟨rfl, rfl⟩ := hab
        constructor
        · rw [hd]
        · rw [hd]
          simp
      · simp [boldDelimAt, hab] at h

/-- Re-inserting the stripped markers around every sub-run reconstructs the
scanned text exactly (character-level, fuel-indexed). -/
theorem subSegsF_reconstruct :
    ∀ (fuel : ℕ) (acc l : List Char), l.length ≤ fuel →
      ((subSegsF fuel acc l).map fun s => (subSource s).data).flatten = acc.reverse ++ l := by
  intro fuel
  induction fuel with
  | zero =>
    intro acc l hl
    have hnil : l = [] := List.eq_nil_of_length_eq_zero (Nat.le_zero.mp hl)
    subst hnil
    simp only [subSegsF]
    split
    · next h => simp [h]
    · next h => simp [subSource]
  | succ fuel ih =>
    intro acc l hl
    cases l with
    | nil =>
      simp only [subSegsF]
      split
      · next h => simp [h]
      · next h => simp [subSource]
    | cons c cs =>
      cases hd : subDelimAt (c :: cs) with
      | none =>
        simp only [subSegsF, hd]
        rw [ih (c :: acc) cs (by simpa using Nat.le_of_succ_le_succ hl)]
        simp
      | some pr =>
        obtain ⟨seg, rest⟩ := pr
        obtain ⟨hdec, hlen⟩ := subDelimAt_eq (c :: cs) seg rest hd
        have hrest : rest.length ≤ fuel := by
          simp only [List.length_cons] at hlen hl
          omega
        simp only [subSegsF, hd, List.map_append, List.map_cons, List.flatten_append,
          List.flatten_cons]
        rw [ih [] rest hrest]
        split
        · next h => simp [h, ← hdec, subSource]
        · next h => simp [← hdec, subSource]

/-- Re-inserting the stripped `**` markers around every bold segment
reconstructs the scanned text exactly (character-level, fuel-indexed). -/
theorem boldSegsF_reconstruct :
    ∀ (fuel : ℕ) (acc l : List Char), l.length ≤ fuel →
      ((boldSegsF fuel acc l).map fun p =>
        if p.1 then '*' :: '*' :: (p.2 ++ ['*', '*']) else p.2).flatten = acc.reverse ++ l := by
  intro fuel
  induction fuel with
  | zero =>
    intro acc l hl
    have hnil : l = [] := List.eq_nil_of_length_eq_zero (Nat.le_zero.mp hl)
    subst hnil
    simp only [boldSegsF]
    split
    · next h => simp [h]
    · next h => simp
  | succ fuel ih =>
    intro acc l hl
    cases l with
    | nil =>
      simp only [boldSegsF]
      split
      · next h => simp [h]
      · next h => simp
    | cons c cs =>
      cases hd : boldDelimAt (c :: cs) with
      | none =>
        simp only [boldSegsF, hd]
        rw [ih (c :: acc) cs (by simpa using Nat.le_of_succ_le_succ hl)]
        simp
      | some pr =>
        obtain ⟨inner, rest⟩ := pr
        obtain ⟨hdec, hlen⟩ := boldDelimAt_eq (c :: cs) inner rest hd
        have hrest : rest.length ≤ fuel := by
          simp only [List.length_cons] at hlen hl
          omega
        simp only [boldSegsF, hd, List.map_append, List.map_cons, List.flatten_append,
          List.flatten_cons, if_true]
        rw [ih [] rest hrest]
        split
        · next h =>
          simp only [h, List.reverse_nil, List.map_nil, List.flatten_nil, List.nil_append]
          rw [← hdec]
          simp
        · next h =>
          rw [← hdec]
          simp

/-- String-level sub-run reconstruction: the sub-run sources of a segment
concatenate to the segment. -/
theorem subSegs_reconstruct (t : String) :
    String.join ((subSegs t).map subSource) = t := by
  apply string_eq_of_data
  rw [string_join_data]
  have h := subSegsF_reconstruct t.data.length [] t.data le_rfl
  simpa [subSegs, List.map_map] using h

/-- Character data of an appended pair of strings. -/
theorem string_data_append (a b : String) : (a ++ b).data = a.data ++ b.data := by
  cases a
  cases b
  rfl

/-- String-level bold-segment reconstruction: the segment sources
concatenate to the line. -/
theorem boldSegs_reconstruct (s : String) :
    String.join ((boldSegs s).map boldSource) = s := by
  apply string_eq_of_data
  rw [string_join_data]
  have h := boldSegsF_reconstruct s.data.length [] s.data le_rfl
  simp only [List.reverse_nil, List.nil_append] at h
  simp only [boldSegs, List.map_map]
  have hfun :
      List.map (String.data ∘ boldSource ∘ fun p => (p.1, String.mk p.2))
        (boldSegsF s.data.length [] s.data) =
      List.map (fun p => if p.1 = true then '*' :: '*' :: (p.2 ++ ['*', '*']) else p.2)
        (boldSegsF s.data.length [] s.data) := by
    apply List.map_congr_left
    intro p _
    simp only [Function.comp_apply, boldSource]
    by_cases hb : p.1 = true
    · simp [hb, string_data_append]
    · simp [hb]
  rw [hfun, h]

/-- Joining the per-element joins of a flattened map equals joining the
flat map. -/
theorem string_join_flatMap {α β : Type} (f : α → List β) (g : β → String) (l : List α) :
    String.join ((l.flatMap f).map g) =
      String.join (l.map fun x => String.join ((f x).map g)) := by
  apply string_eq_of_data
  rw [string_join_data, string_join_data]
  induction l with
  | nil => simp
  | cons a t ih =>
    simp only [List.map_map] at ih
    simp [List.flatMap_cons, ih, string_join_data, List.map_map, Function.comp]

/-- When all `n` lines fit above the automatic page-break trigger, none of
them causes a break: every line lands on the starting page and the cursor
ends `h * n` below where it started. -/
theorem multiCellLines_no_break (n : ℕ) :
    ∀ (st : LayoutState) (h : ℤ), 0 ≤ h → st.y + h * n ≤ pageBreakTrigger →
      ((multiCellLines st h n).1.all fun p => p.1 = st.page) = true ∧
      (multiCellLines st h n).2 = LayoutState.mk st.page (st.y + h * n) := by
  induction n with
  | zero =>
    intro st h _ _
    simp [multiCellLines]
  | succ n ih =>
    intro st h h0 hfit
    push_cast at hfit
    have hn : (0 : ℤ) ≤ h * n := mul_nonneg h0 (by positivity)
    have h1 : st.y + h ≤ pageBreakTrigger := by nlinarith
    have hcond : ¬ pageBreakTrigger < st.y + h := not_lt.mpr h1
    have ihr := ih (LayoutState.mk st.page (st.y + h)) h h0 (by push_cast; linarith)
    simp only [multiCellLines, hcond, if_false]
    constructor
    · simp only [List.all_cons, ihr.1]
      simp
    · rw [ihr.2]
      congr 1
      push_cast
      ring

/-- Every line a `multi_cell` run draws has its bottom at or above the
automatic page-break trigger, provided a line fits on a fresh page. -/
theorem multiCellLines_lines_bounded (n : ℕ) :
    ∀ (st : LayoutState) (h : ℤ), freshPageY + h ≤ pageBreakTrigger →
      ∀ p ∈ (multiCellLines st h n).1, p.2 + h ≤ pageBreakTrigger := by
  induction n with
  | zero =>
    intro st h _ p hp
    simp [multiCellLines] at hp
  | succ n ih =>
    intro st h hfresh p hp
    by_cases hc : pageBreakTrigger < st.y + h
    · simp only [multiCellLines, hc, if_true, List.mem_cons] at hp
      rcases hp with rfl | hp
      · exact hfresh
      · exact ih _ h hfresh p hp
    · simp only [multiCellLines, hc, if_false, List.mem_cons] at hp
      rcases hp with rfl | hp
      · exact not_lt.mp hc
      · exact ih _ h hfresh p hp

/-! ## Claim theorems -/

/-- C10: the text of every fenced code block and every inline code span is
passed through the Latin-1 sanitization unconditionally — for both possible
loaded fonts it equals `sanitize_for_fpdf` of the raw text, whose output is
entirely Latin-1 (every character above U+00FF is gone) — while surrounding
body text under the full-Unicode DejaVu font is written unchanged.  The
concrete conjuncts: the non-Latin-1 character `α` survives in body text but
is replaced by `?` inside a code span. -/
theorem code_text_always_sanitized :
    (∀ font s, codeBlockText font s = sanitize_for_fpdf s ∧
      inlineCodeText font s = sanitize_for_fpdf s) ∧
    (∀ s, (sanitize_for_fpdf s).data.all latin1Char = true) ∧
    (∀ s, safeText MainFont.dejavu s = s) ∧
    codeBlockText MainFont.dejavu "α" = "?" ∧
    safeText MainFont.dejavu "α" = "α" := by
  refine ⟨fun font s => ⟨rfl, rfl⟩, sanitize_all_latin1, fun s => rfl, ?_, rfl⟩
  decide

/-- C6: scaling of a raster asset is always uniform: at block dpi (300) and
at inline dpi (200) alike, the rendered width-to-height ratio equals the
pixel width-to-height ratio exactly. -/
theorem raster_scaling_uniform (pw ph : ℕ) (h : 0 < ph) :
    blockFormulaWidth pw / blockFormulaHeight ph = (pw : ℚ) / ph ∧
    inlineFormulaWidth pw / inlineFormulaHeight ph = (pw : ℚ) / ph := by
  have hph : (ph : ℚ) ≠ 0 := Nat.cast_ne_zero.mpr h.ne'
  constructor
  · unfold blockFormulaWidth blockFormulaHeight mmPerInch
    field_simp
    ring
  · unfold inlineFormulaWidth inlineFormulaHeight mmPerInch
    field_simp
    ring

/-- Witness for C6 at a concrete 100 × 50 pixel asset. -/
theorem raster_scaling_uniform_witness :
    0 < 50 ∧
    (blockFormulaWidth 100 / blockFormulaHeight 50 = (100 : ℚ) / 50 ∧
      inlineFormulaWidth 100 / inlineFormulaHeight 50 = (100 : ℚ) / 50) :=
  ⟨by norm_num, raster_scaling_uniform 100 50 (by norm_num)⟩

/-- C7 counterexample: a 4000-pixel-wide block formula asset is drawn
133.86 mm wide of natural size with no clamping: its left edge lands left
of the content area (x < 20 mm) and its right edge lands past the right
content edge (x + w > 195.9 mm), refuting "the drawn image never extends
past the content area regardless of the raster asset's pixel width". -/
theorem block_formula_overflows_content :
    blockFormulaX 4000 < contentLeft ∧
    contentRight < blockFormulaX 4000 + blockFormulaWidth 4000 := by
  constructor <;> norm_num [blockFormulaX, blockFormulaWidth, mmPerInch, contentLeft, contentRight]

/-- C7 amended: a block formula image is drawn at its natural size
`pixel_width / 300 * 25.4` mm — it is never scaled down to the content
width — and is centered about x = 105 mm (half of a hardcoded 210, not of
the 215.9 mm Letter width); consequently it stays inside the content area
only when its natural width is at most 170 mm. -/
theorem block_formula_natural_size_centered (pw : ℕ) :
    blockFormulaX pw + blockFormulaWidth pw / 2 = 105 ∧
    (blockFormulaWidth pw ≤ 170 →
      contentLeft ≤ blockFormulaX pw ∧
      blockFormulaX pw + blockFormulaWidth pw ≤ contentRight) := by
  constructor
  · unfold blockFormulaX
    ring
  · intro hw
    unfold blockFormulaX contentLeft contentRight
    constructor <;> [linarith; linarith]

/-- Witness for C7 amended at a 1500-pixel-wide asset (natural width
127 mm, which fits). -/
theorem block_formula_natural_size_centered_witness :
    blockFormulaWidth 1500 ≤ 170 ∧
    contentLeft ≤ blockFormulaX 1500 ∧
    blockFormulaX 1500 + blockFormulaWidth 1500 ≤ contentRight := by
  have h := (block_formula_natural_size_centered 1500).2
  have hw : blockFormulaWidth 1500 ≤ 170 := by
    norm_num [blockFormulaWidth, mmPerInch]
  exact ⟨hw, (h hw).1, (h hw).2⟩

/-- C8 counterexample: with the cursor at x = 180 mm, an inline formula
image of pixel width 300 (natural width 38.1 mm at 200 dpi) is still
placed at x = 180 on the current line, and its right edge 218.1 mm lies
past the right content edge 195.9 mm: the renderer neither advances to a
new line first nor shrinks the image. -/
theorem inline_formula_overflows_line :
    (placeInlineFormula 180 100 300 100).imgX = 180 ∧
    contentRight <
      (placeInlineFormula 180 100 300 100).imgX + (placeInlineFormula 180 100 300 100).width := by
  constructor
  · rfl
  · norm_num [placeInlineFormula, inlineFormulaWidth, inlineFormulaHeight, mmPerInch, contentRight]

/-- C8 amended: the inline-math renderer performs no check against the
remaining line width: the image is always placed at the current cursor x
on the current line, at its natural (never shrunk) width, and the cursor
moves past it; so whenever the natural width does not fit the remaining
line, the image is drawn past the right content edge. -/
theorem inline_formula_placed_at_cursor (x y : ℚ) (pw ph : ℕ) :
    (placeInlineFormula x y pw ph).imgX = x ∧
    (placeInlineFormula x y pw ph).width = inlineFormulaWidth pw ∧
    (placeInlineFormula x y pw ph).nextX = x + inlineFormulaWidth pw + 1 ∧
    (contentRight < x + inlineFormulaWidth pw →
      contentRight < (placeInlineFormula x y pw ph).imgX + (placeInlineFormula x y pw ph).width) := by
  exact ⟨rfl, rfl, rfl, fun h => h⟩

/-- Witness for C8 amended: cursor at x = 170 mm, a 400-pixel-wide inline
image (50.8 mm wide) overflows and is nevertheless placed at x = 170. -/
theorem inline_formula_placed_at_cursor_witness :
    contentRight < (170 : ℚ) + inlineFormulaWidth 400 ∧
    contentRight <
      (placeInlineFormula 170 90 400 80).imgX + (placeInlineFormula 170 90 400 80).width := by
  have hover : contentRight < (170 : ℚ) + inlineFormulaWidth 400 := by
    norm_num [inlineFormulaWidth, mmPerInch, contentRight]
  exact ⟨hover, ((inline_formula_placed_at_cursor 170 90 400 80).2.2.2) hover⟩

/-- C1 counterexample: with the cursor at 201 mm, a 10-line code block has
measured height 56 mm, which exceeds the 53.4 mm remaining to the bottom
margin (254.4 mm line) — yet the page-break check (`y + height > 260`)
does not fire: zero new pages are allocated, and drawing splits the box,
the first nine code lines landing on page 1 inside the background
rectangle and the tenth on page 2 (fpdf's automatic page break fires
mid-`multi_cell`). -/
theorem code_block_straddles_pages :
    pageBreakTrigger - ((2010 : ℤ) + 20) < 10 * 50 + 60 ∧
    (drawCodeBlock (LayoutState.mk 1 2010) 10).breaksBefore = 0 ∧
    boxUnsplit (drawCodeBlock (LayoutState.mk 1 2010) 10) = false ∧
    (drawCodeBlock (LayoutState.mk 1 2010) 10).textLines.map Prod.fst =
      [1, 1, 1, 1, 1, 1, 1, 1, 1, 2] := by
  refine ⟨by decide, by decide, by decide, by decide⟩

/-- C1 amended: the pre-emptive page-break check of `draw_code_block` and
`draw_callout_box` compares the box's bottom against a hardcoded 260 mm,
not against the actual bottom of the content area (254.4 mm).  When the
bottom would pass 260 mm, exactly one new page is allocated before drawing
and the box (of at most one page's worth of lines: up to 47 code lines,
up to 38 body lines) is drawn entirely on that page; when the bottom is at
or below 260 mm, no page is allocated at all — even if the measured height
exceeds the space remaining above the bottom margin, in which case the box
can straddle two pages. -/
theorem box_atomic_only_under_260 (st : LayoutState) (n bl : ℕ)
    (hn : n ≤ 47) (hbl : bl ≤ 38) :
    ((boxBreakLimit < st.y + 20 + ((n : ℤ) * 50 + 60) →
       (drawCodeBlock st n).breaksBefore = 1 ∧ boxUnsplit (drawCodeBlock st n) = true) ∧
     (st.y + 20 + ((n : ℤ) * 50 + 60) ≤ boxBreakLimit →
       (drawCodeBlock st n).breaksBefore = 0)) ∧
    ((boxBreakLimit < st.y + 40 + ((bl : ℤ) * 60 + 120) →
       (drawCalloutBox st bl).breaksBefore = 1 ∧ boxUnsplit (drawCalloutBox st bl) = true) ∧
     (st.y + 40 + ((bl : ℤ) * 60 + 120) ≤ boxBreakLimit →
       (drawCalloutBox st bl).breaksBefore = 0)) := by
  constructor
  · constructor
    · intro hover
      have hcond : boxBreakLimit < st.y + 20 + ((n : ℤ) * 50 + 60) := hover
      have hfit : freshPageY + 30 + (50 : ℤ) * n ≤ pageBreakTrigger := by
        have : (n : ℤ) ≤ 47 := by exact_mod_cast hn
        unfold freshPageY pageBreakTrigger
        linarith
      have hmc := multiCellLines_no_break n
        (LayoutState.mk (st.page + 1) (freshPageY + 30)) 50 (by norm_num) (by
          simpa using hfit)
      refine ⟨?_, ?_⟩
      · simp [drawCodeBlock, hcond]
      · simp only [boxUnsplit, drawCodeBlock, hcond, if_true]
        simpa using hmc.1
    · intro hunder
      have hcond : ¬ boxBreakLimit < st.y + 20 + ((n : ℤ) * 50 + 60) := not_lt.mpr hunder
      simp [drawCodeBlock, hcond]
  · constructor
    · intro hover
      have hcond : boxBreakLimit < st.y + 40 + ((bl : ℤ) * 60 + 120) := hover
      have hfit : freshPageY + 90 + (60 : ℤ) * bl ≤ pageBreakTrigger := by
        have : (bl : ℤ) ≤ 38 := by exact_mod_cast hbl
        unfold freshPageY pageBreakTrigger
        linarith
      have hmc := multiCellLines_no_break bl
        (LayoutState.mk (st.page + 1) (freshPageY + 90)) 60 (by norm_num) (by
          simpa using hfit)
      refine ⟨?_, ?_⟩
      · simp [drawCalloutBox, hcond]
      · simp only [boxUnsplit, drawCalloutBox, hcond, if_true]
        simpa using hmc.1
    · intro hunder
      have hcond : ¬ boxBreakLimit < st.y + 40 + ((bl : ℤ) * 60 + 120) := not_lt.mpr hunder
      simp [drawCalloutBox, hcond]

/-- Witness for C1 amended: at cursor 240 mm, a 10-line code block
(bottom at 298 mm > 260) gets exactly one fresh page and is drawn
unsplit; a 10-line callout box (bottom at 100 mm ≤ 260) drawn at cursor
30 mm allocates no page. -/
theorem box_atomic_only_under_260_witness :
    ((10 : ℕ) ≤ 47 ∧ (10 : ℕ) ≤ 38) ∧
    ((drawCodeBlock (LayoutState.mk 1 2400) 10).breaksBefore = 1 ∧
      boxUnsplit (drawCodeBlock (LayoutState.mk 1 2400) 10) = true) ∧
    (drawCalloutBox (LayoutState.mk 1 300) 10).breaksBefore = 0 := by
  refine ⟨⟨by norm_num, by norm_num⟩, ?_, ?_⟩
  · exact ((box_atomic_only_under_260 (LayoutState.mk 1 2400) 10 10
      (by norm_num) (by norm_num)).1).1 (by decide)
  · exact ((box_atomic_only_under_260 (LayoutState.mk 1 300) 10 10
      (by norm_num) (by norm_num)).2).2 (by decide)

/-- C9 counterexample: with the cursor at 206 mm, a 6-body-line callout
box measures 48 mm; its check (`210 + 48 > 260`?) does not fire, so no
page break is triggered, and its background rectangle is inked down to
258 mm — past `page_height - bottom_margin = 254.4` mm — on the current
page.  This refutes "y never exceeds page_height - bottom_margin without a
page break being triggered first". -/
theorem callout_rect_crosses_margin :
    (drawCalloutBox (LayoutState.mk 1 2060) 6).breaksBefore = 0 ∧
    pageBreakTrigger < (drawCalloutBox (LayoutState.mk 1 2060) 6).rectBottom := by
  exact ⟨by decide, by decide⟩

/-- C9 amended: the compositor's own pre-checks bound box ink by the
hardcoded 260 mm line, not by the 254.4 mm bottom margin: a code-block or
callout background rectangle (of at most a page's worth of lines) may be
inked up to 260 mm — into the bottom margin — without a page break, but
never beyond 260 mm; the text lines inside the boxes and flowed formula
images never cross 254.4 mm, because fpdf's automatic page break guards
them. -/
theorem ink_bounded_by_260 (st : LayoutState) (n bl : ℕ) (hImg : ℤ)
    (hn : n ≤ 47) (hbl : bl ≤ 38) (himg : hImg ≤ 2394) :
    (drawCodeBlock st n).rectBottom ≤ boxBreakLimit ∧
    (∀ p ∈ (drawCodeBlock st n).textLines, p.2 + 50 ≤ pageBreakTrigger) ∧
    (drawCalloutBox st bl).rectBottom ≤ boxBreakLimit ∧
    (∀ p ∈ (drawCalloutBox st bl).textLines, p.2 + 60 ≤ pageBreakTrigger) ∧
    (drawLatexImage st hImg).imgBottom ≤ pageBreakTrigger := by
  have hnz : (n : ℤ) ≤ 47 := by exact_mod_cast hn
  have hblz : (bl : ℤ) ≤ 38 := by exact_mod_cast hbl
  refine ⟨?_, ?_, ?_, ?_, ?_⟩
  · by_cases hc : boxBreakLimit < st.y + 20 + ((n : ℤ) * 50 + 60)
    · simp [drawCodeBlock, hc, boxBreakLimit, freshPageY]
      omega
    · simp only [boxBreakLimit] at hc
      simp [drawCodeBlock, boxBreakLimit, hc]
      omega
  · intro p hp
    by_cases hc : boxBreakLimit < st.y + 20 + ((n : ℤ) * 50 + 60)
    · simp [drawCodeBlock, hc] at hp
      exact multiCellLines_lines_bounded n _ 50 (by decide) p hp
    · simp [drawCodeBlock, hc] at hp
      exact multiCellLines_lines_bounded n _ 50 (by decide) p hp
  · by_cases hc : boxBreakLimit < st.y + 40 + ((bl : ℤ) * 60 + 120)
    · simp [drawCalloutBox, hc, boxBreakLimit, freshPageY]
      omega
    · simp only [boxBreakLimit] at hc
      simp [drawCalloutBox, boxBreakLimit, hc]
      omega
  · intro p hp
    by_cases hc : boxBreakLimit < st.y + 40 + ((bl : ℤ) * 60 + 120)
    · simp [drawCalloutBox, hc] at hp
      exact multiCellLines_lines_bounded bl _ 60 (by decide) p hp
    · simp [drawCalloutBox, hc] at hp
      exact multiCellLines_lines_bounded bl _ 60 (by decide) p hp
  · by_cases hc1 : boxBreakLimit < st.y + 20 + hImg
    · by_cases hc2 : pageBreakTrigger < freshPageY + hImg
      · simp [drawLatexImage, hc1, hc2, pageBreakTrigger, freshPageY]
        omega
      · simp only [pageBreakTrigger, freshPageY] at hc2
        simp [drawLatexImage, hc1, pageBreakTrigger, freshPageY, hc2]
        omega
    · by_cases hc2 : pageBreakTrigger < st.y + 20 + hImg
      · simp [drawLatexImage, hc1, hc2, pageBreakTrigger, freshPageY]
        omega
      · simp only [pageBreakTrigger] at hc2
        simp [drawLatexImage, hc1, pageBreakTrigger, hc2]
        omega

/-- Witness for C9 amended at cursor 100 mm with a 10-line code block, a
5-line callout box and a 10 mm formula image. -/
theorem ink_bounded_by_260_witness :
    ((10 : ℕ) ≤ 47 ∧ (5 : ℕ) ≤ 38 ∧ (100 : ℤ) ≤ 2394) ∧
    (drawCodeBlock (LayoutState.mk 1 1000) 10).rectBottom ≤ boxBreakLimit ∧
    (drawCalloutBox (LayoutState.mk 1 1000) 5).rectBottom ≤ boxBreakLimit ∧
    (drawLatexImage (LayoutState.mk 1 1000) 100).imgBottom ≤ pageBreakTrigger := by
  have h := ink_bounded_by_260 (LayoutState.mk 1 1000) 10 5 100
    (by norm_num) (by norm_num) (by norm_num)
  exact ⟨⟨by norm_num, by norm_num, by norm_num⟩, h.1, h.2.2.1, h.2.2.2.2⟩

/-- C3 counterexample: when the client fails on the inline formula `x`, the
drawn fallback is the bare formula padded with spaces, `" x "` — it
contains no bracket at all, refuting "draws a bracketed textual fallback
containing the formula" for inline formulas. -/
theorem inline_fallback_not_bracketed :
    renderRun MainFont.dejavu (fun _ _ => none) (InlineRun.mk false (SubSeg.mathSpan "x")) =
      RenderedRun.inlineMathText " x " ∧
    (" x ").data.all (fun c => c ≠ '[' ∧ c ≠ ']') := by
  exact ⟨rfl, by decide⟩

/-- C3 amended: whenever the rasterization client returns `Failure` the
compositor degrades locally and composition continues — a failed block
formula is drawn as the bracketed fallback `[Formula: …]` containing the
formula, a failed inline formula as the bare formula padded with single
spaces (no brackets), no exception propagates (the embedding is total),
and every parsed block still yields exactly one rendered block no matter
what the client answers. -/
theorem raster_failure_fallback_and_continue
    (font : MainFont) (client : RasterClient) (f : String) (b : Bool)
    (h300 : client f 300 = none) (h200 : client f 200 = none) :
    renderBlock font client (Block.mathBlock f) =
      Rendered.mathFallbackR ("[Formula: " ++ f ++ "]") ∧
    renderRun font client (InlineRun.mk b (SubSeg.mathSpan f)) =
      RenderedRun.inlineMathText (" " ++ f ++ " ") ∧
    (∀ s, (buildDocument font client s).length = (parseDocument s).length) := by
  refine ⟨?_, ?_, fun s => List.length_map _ _⟩
  · simp only [renderBlock, h300]
  · simp only [renderRun, h200]

/-- Witness for C3 amended with the always-failing client and formula
`E=mc^2`. -/
theorem raster_failure_fallback_and_continue_witness :
    ((fun (_ : String) (_ : ℕ) => (none : Option RasterAsset)) "E=mc^2" 300 = none) ∧
    renderBlock MainFont.dejavu (fun _ _ => none) (Block.mathBlock "E=mc^2") =
      Rendered.mathFallbackR ("[Formula: " ++ "E=mc^2" ++ "]") ∧
    renderRun MainFont.dejavu (fun _ _ => none) (InlineRun.mk true (SubSeg.mathSpan "E=mc^2")) =
      RenderedRun.inlineMathText (" " ++ "E=mc^2" ++ " ") ∧
    (buildDocument MainFont.dejavu (fun _ _ => none) "$$E=mc^2$$").length =
      (parseDocument "$$E=mc^2$$").length := by
  have h := raster_failure_fallback_and_continue MainFont.dejavu
    (fun _ _ => none) "E=mc^2" true rfl rfl
  exact ⟨rfl, h.1, h.2.1, h.2.2 "$$E=mc^2$$"⟩

/-- C4: the Document Builder is deterministic: for every markup string and
loaded font, two builds against rasterization clients that give identical
responses produce identical artifacts (the artifact being the ordered
sequence of rendered blocks, which carries every client response the ink
depends on). -/
theorem builder_deterministic
    (font : MainFont) (c1 c2 : RasterClient) (s : String)
    (h : ∀ f d, c1 f d = c2 f d) :
    buildDocument font c1 s = buildDocument font c2 s := by
  have hc : c1 = c2 := funext fun f => funext fun d => h f d
  rw [hc]

/-- Witness for C4: two syntactically distinct but pointwise-equal failing
clients build the same artifact for a concrete markup string. -/
theorem builder_deterministic_witness :
    ((fun (_ : String) (_ : ℕ) => (none : Option RasterAsset)) "x" 300 =
      (fun (_ : String) (d : ℕ) => if d = d then (none : Option RasterAsset) else none) "x" 300) ∧
    buildDocument MainFont.dejavu (fun _ _ => none) "### T\n$$x$$" =
      buildDocument MainFont.dejavu
        (fun _ d => if d = d then none else none) "### T\n$$x$$" := by
  refine ⟨by simp, ?_⟩
  exact builder_deterministic MainFont.dejavu _ _ _ (fun f d => by simp)

/-- C5: the ordered InlineRuns produced by the inline style resolver lose
and duplicate nothing: re-inserting each run's own style markers (`**`
around bold segments, backticks around code spans, `$` around math spans)
and concatenating in order reconstructs the original text exactly; hence
the concatenation of the runs' bare contents (`strippedText`) is precisely
the original text with the resolved style markers stripped. -/
theorem inline_runs_reconstruct :
    (∀ s : String,
      String.join ((boldSegs s).map fun p =>
        if p.1 then "**" ++ String.join ((subSegs p.2).map subSource) ++ "**"
        else String.join ((subSegs p.2).map subSource)) = s) ∧
    (∀ s : String, strippedText s =
      String.join ((boldSegs s).map fun p =>
        String.join ((subSegs p.2).map subContent))) := by
  constructor
  · intro s
    have hmap : ((boldSegs s).map fun p =>
        if p.1 then "**" ++ String.join ((subSegs p.2).map subSource) ++ "**"
        else String.join ((subSegs p.2).map subSource)) = (boldSegs s).map boldSource := by
      apply List.map_congr_left
      intro p _
      rw [subSegs_reconstruct p.2]
      rfl
    rw [hmap, boldSegs_reconstruct]
  · intro s
    unfold strippedText resolveInline
    rw [string_join_flatMap
      (fun p : Bool × String => (subSegs p.2).map fun seg => InlineRun.mk p.1 seg)
      runContent (boldSegs s)]
    apply congrArg
    apply List.map_congr_left
    intro p _
    rw [List.map_map]
    rfl

/-- C2 counterexample: the input `"x\n```abc"` contains an opening fence
marker with no matching closing marker, yet the parser does not implicitly
close it: the regex separator never matches, the whole input stays one
plain-text chunk, and the fence line is rendered as an ordinary paragraph —
no CodeBlock is emitted at all, let alone one holding the remaining
text. -/
theorem unterminated_fence_not_closed :
    parseDocument "x\n```abc" = [Block.paragraph "x", Block.paragraph "```abc"] ∧
    (parseDocument "x\n```abc").all (fun b => !(isCodeBlock b)) = true := by
  exact ⟨by decide, by decide⟩

/-- C2 amended: an unterminated fence is never implicitly closed at
end-of-string.  No error is raised (the parse is total), but: a chunk that
itself begins with the fence marker is classified as a CodeBlock whose
last three characters are also stripped, as if a closing fence were
present — `"```abcdef"` keeps only `"abc"` and `"```abc"` keeps nothing —
while an unterminated fence after other text is rendered as ordinary
paragraph lines with the backticks visible, never as a CodeBlock. -/
theorem unterminated_fence_behavior :
    parseDocument "```abcdef" = [Block.codeBlock "abc"] ∧
    parseDocument "```abc" = [Block.codeBlock ""] ∧
    (parseDocument "x\n```abc").all (fun b => !(isCodeBlock b)) = true ∧
    parseDocument "see:\n```f(1)" = [Block.paragraph "see:", Block.paragraph "```f(1)"] := by
  exact ⟨by decide, by decide, by decide, by decide⟩

end GuideGenerator
